import Mathlib

/-!
# Verification of the timelib timing library

A shallow embedding of the `timelib` headers (`timespec.hpp`, `duration.hpp`,
`stopwatch.hpp`, `timer.hpp`) and of the legacy `stopwatch` variant, together
with theorems settling the specification's claims.

C++ `double` values are modelled exactly: every `double` is represented by the
rational number it denotes, and every floating-point operation rounds its exact
rational result to the nearest IEEE-754 binary64 value (ties to even), which is
what the hardware does for `+`, `-`, `*`, `/` and int-to-double conversion.
Machine integers (`time_t`, `long`) are modelled as `Int`; all quantities in
this development stay far below the 64-bit overflow range.
-/

namespace Timelib

/-! ## IEEE-754 binary64 model -/

/-- Fuel-driven base-2 logarithm on naturals: `lg2F fuel n` computes
`⌊log₂ n⌋` provided `n ≤ fuel` (and `1 ≤ n`). Structural recursion on the
fuel keeps the function kernel-reducible. -/
def lg2F : Nat → Nat → Nat
  | 0, _ => 0
  | fuel + 1, n => if 2 ≤ n then lg2F fuel (n / 2) + 1 else 0

/-- `⌊log₂ n⌋` for `n ≥ 1` (and `0` for `n = 0`). -/
def lg2 (n : Nat) : Nat := lg2F n n

/-- Floor of a rational number, computed on the numerator/denominator pair. -/
def qfloor (x : ℚ) : ℤ := Int.fdiv x.num x.den

/-- Truncation of a rational toward zero, as a C cast from `double` to an
integer type does. -/
def qtrunc (x : ℚ) : ℤ := Int.tdiv x.num x.den

/-- Exponent of a positive rational: the unique `e` with `2^e ≤ x < 2^(e+1)`.
The candidate from the numerator/denominator logarithms is off by at most one,
which the comparison corrects. -/
def exp2Floor (x : ℚ) : ℤ :=
  let e0 : ℤ := (lg2 x.num.natAbs : ℤ) - (lg2 x.den : ℤ)
  if x < (2 : ℚ) ^ e0 then e0 - 1 else e0

/-- Round a positive rational to the nearest IEEE-754 binary64 value, ties to
even: the rounding quantum is `2^(e-52)` for normal values (`2^-1074` in the
subnormal range), and the scaled value is rounded to the nearest integer.
Overflow to infinity is not modelled; every value in this development stays
far below the finite limit. -/
def roundPos (x : ℚ) : ℚ :=
  let e := exp2Floor x
  let q : ℚ := if e < -1022 then (2 : ℚ) ^ (-1074 : ℤ) else (2 : ℚ) ^ (e - 52)
  let y := x / q
  let n := qfloor y
  let frac := y - (n : ℚ)
  let n2 := if 1 / 2 < frac then n + 1
            else if frac < 1 / 2 then n
            else if n % 2 = 0 then n else n + 1
  (n2 : ℚ) * q

/-- Round a rational to the nearest binary64 value (ties to even). This is the
result of any C++ `double` arithmetic operation whose exact value is `x`. -/
def roundDouble (x : ℚ) : ℚ :=
  if x = 0 then 0
  else if x < 0 then -roundPos (-x) else roundPos x

/-- `double` addition. -/
def dadd (a b : ℚ) : ℚ := roundDouble (a + b)

/-- `double` subtraction. -/
def dsub (a b : ℚ) : ℚ := roundDouble (a - b)

/-- `double` multiplication. -/
def dmul (a b : ℚ) : ℚ := roundDouble (a * b)

/-- `double` division. -/
def ddiv (a b : ℚ) : ℚ := roundDouble (a / b)

/-- `static_cast<double>` of a 64-bit integer: rounds to the nearest
representable value. -/
def intToDouble (n : ℤ) : ℚ := roundDouble (n : ℚ)

/-! ## `timespec_t` (src/include/timelib/timespec.hpp) -/

/-- `detail::ns_per_second`. -/
def ns_per_second : ℤ := 1000000000

/-- `detail::ns_per_hour`. -/
def ns_per_hour : ℤ := 3600000000000

/-- `detail::ns_per_minute`. -/
def ns_per_minute : ℤ := 60000000000

/-- `detail::ns_per_millisecond`. -/
def ns_per_millisecond : ℤ := 1000000

/-- `detail::ns_per_microsecond`. -/
def ns_per_microsecond : ℤ := 1000

/-- `timelib::timespec_t`: a seconds/nanoseconds pair (`time_t` and `long`
are modelled as unbounded integers). -/
structure timespec_t where
  tv_sec : ℤ
  tv_nsec : ℤ
  deriving DecidableEq, Repr

/-- `timespec_t::zero()`. -/
def timespec_t.zero : timespec_t := ⟨0, 0⟩

/-- First loop of `timespec_t::normalize`:
`while (tv_nsec >= ns_per_second) { ++tv_sec; tv_nsec -= ns_per_second; }`.
The fuel argument only drives the recursion; `nsub1K` below runs it with
enough fuel for the loop to reach its exit condition. -/
def nloop1 : Nat → ℤ → ℤ → ℤ × ℤ
  | 0, s, n => (s, n)
  | fuel + 1, s, n =>
    if ns_per_second ≤ n then nloop1 fuel (s + 1) (n - ns_per_second) else (s, n)

/-- Second loop of `timespec_t::normalize`:
`while (tv_nsec <= -ns_per_second) { --tv_sec; tv_nsec += ns_per_second; }`. -/
def nloop2 : Nat → ℤ → ℤ → ℤ × ℤ
  | 0, s, n => (s, n)
  | fuel + 1, s, n =>
    if n ≤ -ns_per_second then nloop2 fuel (s - 1) (n + ns_per_second) else (s, n)

/-- `timespec_t::normalize()`: both reduction loops followed by the final
negative-remainder fixup. `n.natAbs` iterations are always enough fuel since
every loop iteration moves `tv_nsec` by `ns_per_second ≥ 1`. -/
def timespec_t.normalize (ts : timespec_t) : timespec_t :=
  let p1 := nloop1 ts.tv_nsec.natAbs ts.tv_sec ts.tv_nsec
  let p2 := nloop2 p1.2.natAbs p1.1 p1.2
  if p2.2 < 0 then ⟨p2.1 - 1, ns_per_second + p2.2⟩ else ⟨p2.1, p2.2⟩

/-- `timespec_t::count()`:
`(double)tv_sec + ((double)tv_nsec / 1e9)`, every operation in `double`. -/
def timespec_t.count (ts : timespec_t) : ℚ :=
  dadd (intToDouble ts.tv_sec) (ddiv (intToDouble ts.tv_nsec) 1000000000)

/-- The floating-point constructor `timespec_t(T value)`:
`tv_sec = (time_t)value; tv_nsec = (long)(((double)value - (double)tv_sec) * 1e9);`
followed by `normalize()`. -/
def timespec_t.ofDouble (value : ℚ) : timespec_t :=
  let sec : ℤ := qtrunc value
  let nsec : ℤ := qtrunc (dmul (dsub value (intToDouble sec)) 1000000000)
  timespec_t.normalize ⟨sec, nsec⟩

/-- `operator+(timespec_t, timespec_t)`: `timespec_t(lhs.count() + rhs.count())`. -/
def tadd (lhs rhs : timespec_t) : timespec_t :=
  timespec_t.ofDouble (dadd lhs.count rhs.count)

/-- `operator-(timespec_t, timespec_t)`: `timespec_t(lhs.count() - rhs.count())`. -/
def tsub (lhs rhs : timespec_t) : timespec_t :=
  timespec_t.ofDouble (dsub lhs.count rhs.count)

/-- `timespec_t::to_nanoseconds<time_t>()`: `tv_sec * ns_per_second + tv_nsec`. -/
def timespec_t.to_nanoseconds (ts : timespec_t) : ℤ :=
  ts.tv_sec * ns_per_second + ts.tv_nsec

/-! ## `Duration` (src/include/timelib/duration.hpp) -/

/-- `timelib::print_mode_t`. -/
inductive print_mode_t where
  | human
  | numeric
  | total
  | custom
  deriving DecidableEq, Repr

/-- `timelib::Duration`: a raw `timespec_t` plus display settings. -/
structure Duration where
  duration : timespec_t
  print_mode : print_mode_t
  format : String
  deriving DecidableEq, Repr

/-- `Duration::count()`: the raw value as a `double` seconds count. -/
def Duration.count (d : Duration) : ℚ := d.duration.count

/-- `Duration::set_print_mode`. -/
def Duration.set_print_mode (d : Duration) (print_mode : print_mode_t) : Duration :=
  { d with print_mode := print_mode }

/-- `Duration::set_format`. -/
def Duration.set_format (d : Duration) (format : String) : Duration :=
  { d with format := format }

/-- `Duration::operator=(const timespec_t &)`: overwrites only `_duration`. -/
def Duration.assignRaw (d : Duration) (rhs : timespec_t) : Duration :=
  { d with duration := rhs }

/-- `Duration::operator+=(const T &)` at `T = timespec_t`:
`_duration = _duration + rhs`. -/
def Duration.addRaw (d : Duration) (rhs : timespec_t) : Duration :=
  { d with duration := tadd d.duration rhs }

/-- `std::setw(3)` applied to the next stream insertion: left-pad with spaces
to a minimum width of 3. -/
def padw3 (s : String) : String :=
  if s.length < 3 then String.mk (List.replicate (3 - s.length) ' ') ++ s else s

/-- The scan underlying `Duration::replace(s, pat, sub)` with the default
`occurences = -1` (the only way `to_string` calls it): the C++ loop finds the
leftmost occurrence at or after the scan position, splices in the substitute
and resumes right after it, which for a nonempty pattern is exactly a
left-to-right scan replacing each matching prefix as it is reached. -/
def replChars (pat sub : List Char) : List Char → List Char
  | [] => []
  | c :: rest =>
    if pat.isPrefixOf (c :: rest) then
      sub ++ replChars pat sub (rest.drop (pat.length - 1))
    else
      c :: replChars pat sub rest
termination_by l => l.length
decreasing_by
  · simpa using Nat.lt_succ_of_le (Nat.sub_le rest.length (pat.length - 1))
  · simp

/-- `Duration::replace` on strings, all occurrences. A guard skips the empty
pattern, on which the C++ loop would not terminate; `to_string` only passes
two-character patterns. -/
def replaceAll (s pat sub : String) : String :=
  if pat = "" then s else ⟨replChars pat.data sub.data s.data⟩

/-- Stand-in for `operator<<(std::ostream &, double)` in the `total` branch of
`Duration::to_string`. The stream's default 6-significant-digit formatting is
not reproduced digit-for-digit (no claim exercises the `total` branch); the
exact value is rendered as a fraction instead. -/
def showDouble (x : ℚ) : String := toString x.num ++ "/" ++ toString x.den

/-- `Duration::to_string()` (src/include/timelib/duration.hpp lines 247-298):
decompose the nanosecond total by truncating division, then render according
to the print mode. -/
def Duration.to_string (d : Duration) : String :=
  if d.print_mode = .total then
    showDouble (dmul (intToDouble d.duration.to_nanoseconds) (roundDouble (Rat.divInt 1 1000000000)))
  else
    let ns0 := d.duration.to_nanoseconds
    let h := ns0.tdiv ns_per_hour
    let r1 := ns0.tmod ns_per_hour
    let m := r1.tdiv ns_per_minute
    let r2 := r1.tmod ns_per_minute
    let s := r2.tdiv ns_per_second
    let r3 := r2.tmod ns_per_second
    let ms := r3.tdiv ns_per_millisecond
    let r4 := r3.tmod ns_per_millisecond
    let us := r4.tdiv ns_per_microsecond
    let ns := r4.tmod ns_per_microsecond
    if d.print_mode = .human then
      (if h ≠ 0 then padw3 (toString h) ++ "H " else "")
        ++ (if m ≠ 0 then padw3 (toString m) ++ "M " else "")
        ++ (if s ≠ 0 then padw3 (toString s) ++ "s " else "")
        ++ (if ms ≠ 0 then padw3 (toString ms) ++ "m " else "")
        ++ (if us ≠ 0 then padw3 (toString us) ++ "u " else "")
        ++ (if ns ≠ 0 then padw3 (toString ns) ++ "n " else "")
    else if d.print_mode = .numeric then
      toString h ++ "." ++ toString m ++ "." ++ toString s ++ "."
        ++ toString ms ++ "." ++ toString us ++ "." ++ toString ns
    else if d.format ≠ "" then
      replaceAll (replaceAll (replaceAll (replaceAll (replaceAll (replaceAll
        d.format "%H" (toString h)) "%M" (toString m)) "%s" (toString s))
        "%m" (toString ms)) "%u" (toString us)) "%n" (toString ns)
    else ""

/-! ## `Stopwatch` (src/include/timelib/stopwatch.hpp)

The clock is the only external input; each clock-reading member function takes
the value `timespec_t::now()` would return as an explicit argument. -/

/-- `timelib::Stopwatch`'s state. -/
structure Stopwatch where
  last_time_point : timespec_t
  total_duration : Duration
  partials : List Duration
  print_mode : print_mode_t
  format : String
  deriving DecidableEq, Repr

/-- The `Stopwatch(print_mode, format)` constructor, with `now` the clock
reading it stores. -/
def Stopwatch.create (print_mode : print_mode_t) (format : String) (now : timespec_t) : Stopwatch :=
  { last_time_point := now
  , total_duration := ⟨timespec_t.zero, print_mode, format⟩
  , partials := []
  , print_mode := print_mode
  , format := format }

/-- `Stopwatch::set_print_mode`: store the mode and propagate it to the total
and to every recorded partial. -/
def Stopwatch.set_print_mode (sw : Stopwatch) (print_mode : print_mode_t) : Stopwatch :=
  { sw with
    print_mode := print_mode
    total_duration := sw.total_duration.set_print_mode print_mode
    partials := sw.partials.map (Duration.set_print_mode · print_mode) }

/-- `Stopwatch::set_format`: store the format and propagate it to the total
and to every recorded partial. -/
def Stopwatch.set_format (sw : Stopwatch) (format : String) : Stopwatch :=
  { sw with
    format := format
    total_duration := sw.total_duration.set_format format
    partials := sw.partials.map (Duration.set_format · format) }

/-- `Stopwatch::start()`. -/
def Stopwatch.start (sw : Stopwatch) (now : timespec_t) : Stopwatch :=
  { sw with last_time_point := now }

/-- `Stopwatch::reset()`: zero the total (keeping its display settings, per
`Duration::operator=(timespec_t)`), clear the partials, and start again. -/
def Stopwatch.reset (sw : Stopwatch) (now : timespec_t) : Stopwatch :=
  ({ sw with
     total_duration := sw.total_duration.assignRaw timespec_t.zero
     partials := [] }).start now

/-- `Stopwatch::round()`: returns the updated stopwatch and the new round's
`Duration`. -/
def Stopwatch.round (sw : Stopwatch) (now : timespec_t) : Stopwatch × Duration :=
  let elapsed := tsub now sw.last_time_point
  let duration : Duration := ⟨elapsed, sw.print_mode, sw.format⟩
  ({ sw with
     last_time_point := now
     total_duration := sw.total_duration.addRaw elapsed
     partials := sw.partials ++ [duration] }, duration)

/-- `Stopwatch::operator[]`: the recorded round at `position`, or the
`std::out_of_range` error the C++ throws past the recorded count. -/
def Stopwatch.atIndex (sw : Stopwatch) (position : Nat) : Except String Duration :=
  if h : position < sw.partials.length then
    .ok (sw.partials.get ⟨position, h⟩)
  else
    .error "Out of range of partial times."

/-- One externally driven step of a `Stopwatch`: a member-function call
together with the clock value observed during it. -/
inductive SwOp where
  | reset (now : timespec_t)
  | start (now : timespec_t)
  | round (now : timespec_t)
  | setPrintMode (print_mode : print_mode_t)
  | setFormat (format : String)

/-- Apply one step. -/
def swStep (sw : Stopwatch) : SwOp → Stopwatch
  | .reset now => sw.reset now
  | .start now => sw.start now
  | .round now => (sw.round now).1
  | .setPrintMode pm => sw.set_print_mode pm
  | .setFormat fmt => sw.set_format fmt

/-- Run a sequence of steps. -/
def swRun (sw : Stopwatch) (ops : List SwOp) : Stopwatch := ops.foldl swStep sw

/-- Sum of a list of raw round values, with the library's own `timespec_t`
addition, starting from `timespec_t::zero()`. -/
def sumRounds (l : List Duration) : timespec_t :=
  l.foldl (fun acc d => tadd acc d.duration) timespec_t.zero

/-! ## Legacy `stopwatch::Stopwatch` (src/include/stopwatch/stopwatch.hpp)

The C++11 path: `Duration` wraps `std::chrono::duration<double>` (modelled by
the exact value of its `double` seconds count) and the stopwatch keeps a
`high_resolution_clock` time point (modelled by its nanosecond count). -/

/-- `stopwatch::PrintMode` (no `custom` member in this revision). -/
inductive LPrintMode where
  | human
  | numeric
  | total
  deriving DecidableEq, Repr

/-- `stopwatch::Duration`. -/
structure LDuration where
  duration : ℚ
  print_mode : LPrintMode
  deriving DecidableEq, Repr

/-- `stopwatch::Stopwatch`'s state. -/
structure LStopwatch where
  last_time_point : ℤ
  total_duration : LDuration
  partials : List LDuration
  print_mode : LPrintMode
  deriving DecidableEq, Repr

/-- `stopwatch::Stopwatch::set_print_mode` (lines 420-424): stores the mode
and forwards it to `_total_duration` only — the recorded `_partials` are left
untouched. -/
def LStopwatch.set_print_mode (sw : LStopwatch) (print_mode : LPrintMode) : LStopwatch :=
  { sw with
    print_mode := print_mode
    total_duration := { sw.total_duration with print_mode := print_mode } }

/-- `stopwatch::Stopwatch::operator[]` (lines 497-509). -/
def LStopwatch.atIndex (sw : LStopwatch) (position : Nat) : Except String LDuration :=
  if h : position < sw.partials.length then
    .ok (sw.partials.get ⟨position, h⟩)
  else
    .error "Out of range of partial times."

/-! ## `Timer` (src/include/timelib/timer.hpp) -/

/-- `timelib::Timer`'s state: a single reference time point, display
settings, and the timeout stored as a `double` seconds value. -/
structure Timer where
  initial_time_point : timespec_t
  print_mode : print_mode_t
  format : String
  timeout : ℚ
  deriving DecidableEq, Repr

/-- The `Timer(print_mode, format, timeout)` constructor, with `now` the
clock reading it stores. -/
def Timer.create (print_mode : print_mode_t) (format : String) (timeout : ℚ)
    (now : timespec_t) : Timer :=
  ⟨now, print_mode, format, timeout⟩

/-- `Timer::set_timeout(double)`. -/
def Timer.set_timeout (t : Timer) (timeout : ℚ) : Timer :=
  { t with timeout := timeout }

/-- `Timer::start()` / `Timer::reset()` (identical bodies): re-mark the
reference point. -/
def Timer.start (t : Timer) (now : timespec_t) : Timer :=
  { t with initial_time_point := now }

/-- `Timer::elapsed()`: `Duration(now - _initial_time_point, ...)`. -/
def Timer.elapsed (t : Timer) (now : timespec_t) : Duration :=
  ⟨tsub now t.initial_time_point, t.print_mode, t.format⟩

/-- `Timer::has_timeout()`: `elapsed().count() > _timeout`, a `double`
comparison with no special case for a zero timeout. -/
def Timer.has_timeout (t : Timer) (now : timespec_t) : Bool :=
  decide (t.timeout < (t.elapsed now).count)

/-! ## The pausable Timer exercised by src/examples/example_timer.cpp -/

/-- Modelled from the spec: the pausable `Timer` revision — the `pause()`
method, the `accumulated` field and the pause-aware `elapsed()` — is
repository code absent from src/include/timelib/timer.hpp; only its caller
src/examples/example_timer.cpp is under src/. Per spec §3/§4.4: elapsed time
is `(now − reference_point) + accumulated`; `pause()` folds the currently
running interval into `accumulated` and freezes measurement; `start()`
re-marks the reference point and resumes without clearing `accumulated`;
`reset()` clears it. TimeValues are represented by their exact nanosecond
counts. -/
structure PTimer where
  reference_point : ℤ
  accumulated : ℤ
  paused : Bool
  deriving DecidableEq, Repr

/-- Modelled from the spec: `reset()` re-marks the reference point and clears
the accumulated total. -/
def PTimer.reset (now : ℤ) : PTimer := ⟨now, 0, false⟩

/-- Modelled from the spec: `start()` re-marks the reference point and
resumes, keeping `accumulated`. -/
def PTimer.start (t : PTimer) (now : ℤ) : PTimer :=
  { t with reference_point := now, paused := false }

/-- Modelled from the spec: `pause()` folds the running interval into
`accumulated` and freezes measurement. -/
def PTimer.pause (t : PTimer) (now : ℤ) : PTimer :=
  { t with accumulated := t.accumulated + (now - t.reference_point), paused := true }

/-- Modelled from the spec: `elapsed()` reports `accumulated` plus the
currently running interval — which is frozen (contributes nothing) while
paused. -/
def PTimer.elapsed (t : PTimer) (now : ℤ) : ℤ :=
  t.accumulated + (if t.paused then 0 else now - t.reference_point)

/-- Run `round()` once per clock value in `nows`. -/
def swRunRounds (sw : Stopwatch) (nows : List timespec_t) : Stopwatch :=
  nows.foldl (fun s t => (s.round t).1) sw

/-- The spec's Stopwatch invariant: the total equals the sum of the recorded
rounds. -/
def swInv (sw : Stopwatch) : Prop :=
  sumRounds sw.partials = sw.total_duration.duration

/-- A concrete stopwatch with one recorded 5-second round, for witnesses. -/
def swExample : Stopwatch :=
  ⟨⟨0, 0⟩, ⟨timespec_t.zero, .human, ""⟩, [⟨⟨5, 0⟩, .human, ""⟩], .human, ""⟩

/-- A concrete legacy stopwatch with one recorded 2-second round, for
witnesses. -/
def lswExample : LStopwatch := ⟨0, ⟨0, .human⟩, [⟨2, .human⟩], .human⟩

/-! ## Lemmas: `normalize` -/

theorem nloop1_snd_lt (fuel : ℕ) : ∀ s n : ℤ, n < ns_per_second * ((fuel : ℤ) + 1) →
    (nloop1 fuel s n).2 < ns_per_second := by
  induction fuel with
  | zero =>
    intro s n h
    show n < ns_per_second
    simpa using h
  | succ fuel ih =>
    intro s n h
    by_cases hc : ns_per_second ≤ n
    · rw [nloop1, if_pos hc]
      apply ih
      push_cast at h ⊢
      linarith
    · rw [nloop1, if_neg hc]
      exact not_le.mp hc

theorem nloop1_snd_nonneg (fuel : ℕ) : ∀ s n : ℤ, -ns_per_second < n →
    -ns_per_second < (nloop1 fuel s n).2 := by
  induction fuel with
  | zero => intro s n h; exact h
  | succ fuel ih =>
    intro s n h
    by_cases hc : ns_per_second ≤ n
    · rw [nloop1, if_pos hc]
      apply ih
      have : (0 : ℤ) < ns_per_second := by norm_num [ns_per_second]
      linarith
    · rw [nloop1, if_neg hc]; exact h

theorem nloop1_value (fuel : ℕ) : ∀ s n : ℤ,
    (nloop1 fuel s n).1 * ns_per_second + (nloop1 fuel s n).2 = s * ns_per_second + n := by
  induction fuel with
  | zero => intro s n; rfl
  | succ fuel ih =>
    intro s n
    by_cases hc : ns_per_second ≤ n
    · rw [nloop1, if_pos hc, ih]; ring
    · rw [nloop1, if_neg hc]

theorem nloop2_snd_gt (fuel : ℕ) : ∀ s n : ℤ, -(ns_per_second * ((fuel : ℤ) + 1)) < n →
    -ns_per_second < (nloop2 fuel s n).2 := by
  induction fuel with
  | zero =>
    intro s n h
    show -ns_per_second < n
    simpa using h
  | succ fuel ih =>
    intro s n h
    by_cases hc : n ≤ -ns_per_second
    · rw [nloop2, if_pos hc]
      apply ih
      push_cast at h ⊢
      linarith
    · rw [nloop2, if_neg hc]
      exact not_le.mp hc

theorem nloop2_snd_lt (fuel : ℕ) : ∀ s n : ℤ, n < ns_per_second →
    (nloop2 fuel s n).2 < ns_per_second := by
  induction fuel with
  | zero => intro s n h; exact h
  | succ fuel ih =>
    intro s n h
    by_cases hc : n ≤ -ns_per_second
    · rw [nloop2, if_pos hc]
      apply ih
      have : (0 : ℤ) < ns_per_second := by norm_num [ns_per_second]
      linarith
    · rw [nloop2, if_neg hc]; exact h

theorem nloop2_value (fuel : ℕ) : ∀ s n : ℤ,
    (nloop2 fuel s n).1 * ns_per_second + (nloop2 fuel s n).2 = s * ns_per_second + n := by
  induction fuel with
  | zero => intro s n; rfl
  | succ fuel ih =>
    intro s n
    by_cases hc : n ≤ -ns_per_second
    · rw [nloop2, if_pos hc, ih]; ring
    · rw [nloop2, if_neg hc]

theorem int_lt_fuel_bound (n : ℤ) : n < ns_per_second * ((n.natAbs : ℤ) + 1) := by
  have h1 : n ≤ (n.natAbs : ℤ) := Int.le_natAbs
  have h2 : (0 : ℤ) ≤ (n.natAbs : ℤ) := Int.ofNat_nonneg _
  have h3 : (1 : ℤ) ≤ ns_per_second := by norm_num [ns_per_second]
  have h4 : (n.natAbs : ℤ) + 1 ≤ ns_per_second * ((n.natAbs : ℤ) + 1) :=
    le_mul_of_one_le_left (by linarith) h3
  linarith

theorem int_gt_fuel_bound (n : ℤ) : -(ns_per_second * ((n.natAbs : ℤ) + 1)) < n := by
  have h1 : -(n.natAbs : ℤ) ≤ n := by
    rw [Int.natCast_natAbs]; exact neg_abs_le n
  have h2 : (0 : ℤ) ≤ (n.natAbs : ℤ) := Int.ofNat_nonneg _
  have h3 : (1 : ℤ) ≤ ns_per_second := by norm_num [ns_per_second]
  have h4 : (n.natAbs : ℤ) + 1 ≤ ns_per_second * ((n.natAbs : ℤ) + 1) :=
    le_mul_of_one_le_left (by linarith) h3
  linarith

/-- After `normalize`, the nanoseconds field lies in `[0, ns_per_second)` and
the total nanosecond value is unchanged (borrow/overflow went into the
seconds field). -/
theorem normalize_spec (ts : timespec_t) :
    0 ≤ ts.normalize.tv_nsec ∧ ts.normalize.tv_nsec < ns_per_second ∧
      ts.normalize.to_nanoseconds = ts.to_nanoseconds := by
  simp only [timespec_t.normalize]
  set p1 := nloop1 ts.tv_nsec.natAbs ts.tv_sec ts.tv_nsec with hp1
  set p2 := nloop2 p1.2.natAbs p1.1 p1.2 with hp2
  have h1lt : p1.2 < ns_per_second := by
    rw [hp1]; exact nloop1_snd_lt _ _ _ (int_lt_fuel_bound ts.tv_nsec)
  have h2gt : -ns_per_second < p2.2 := by
    rw [hp2]; exact nloop2_snd_gt _ _ _ (int_gt_fuel_bound p1.2)
  have h2lt : p2.2 < ns_per_second := by
    rw [hp2]; exact nloop2_snd_lt _ _ _ h1lt
  have hval : p2.1 * ns_per_second + p2.2 = ts.tv_sec * ns_per_second + ts.tv_nsec := by
    rw [hp2, nloop2_value, hp1, nloop1_value]
  by_cases hneg : p2.2 < 0
  · rw [if_pos hneg]
    refine ⟨?_, ?_, ?_⟩
    · show (0 : ℤ) ≤ ns_per_second + p2.2
      linarith
    · show ns_per_second + p2.2 < ns_per_second
      linarith
    · show (p2.1 - 1) * ns_per_second + (ns_per_second + p2.2) = ts.to_nanoseconds
      simp only [timespec_t.to_nanoseconds]
      linear_combination hval
  · rw [if_neg hneg]
    refine ⟨le_of_not_lt hneg, h2lt, ?_⟩
    show p2.1 * ns_per_second + p2.2 = ts.to_nanoseconds
    simp only [timespec_t.to_nanoseconds]
    exact hval

theorem nloop1_id (fuel : ℕ) (s n : ℤ) (h : n < ns_per_second) : nloop1 fuel s n = (s, n) := by
  cases fuel with
  | zero => rfl
  | succ fuel => rw [nloop1, if_neg (not_le.mpr h)]

theorem nloop2_id (fuel : ℕ) (s n : ℤ) (h : -ns_per_second < n) : nloop2 fuel s n = (s, n) := by
  cases fuel with
  | zero => rfl
  | succ fuel => rw [nloop2, if_neg (not_le.mpr (by linarith))]

/-- `normalize` leaves an already-normalized pair unchanged. -/
theorem normalize_of_inrange (s n : ℤ) (h0 : 0 ≤ n) (h1 : n < ns_per_second) :
    timespec_t.normalize ⟨s, n⟩ = ⟨s, n⟩ := by
  unfold timespec_t.normalize
  simp only
  rw [nloop1_id _ _ _ h1]
  rw [nloop2_id _ _ _ (by norm_num [ns_per_second] at h1 ⊢; linarith)]
  rw [if_neg (not_lt.mpr h0)]

/-! ## Lemmas: binary64 rounding is exact on small integers -/

theorem lg2F_spec : ∀ fuel n : ℕ, n ≤ fuel → 1 ≤ n →
    2 ^ lg2F fuel n ≤ n ∧ n < 2 ^ (lg2F fuel n + 1) := by
  intro fuel
  induction fuel with
  | zero => intro n hle h1; omega
  | succ fuel ih =>
    intro n hle h1
    by_cases hc : 2 ≤ n
    · rw [lg2F, if_pos hc]
      have hdle : n / 2 ≤ fuel := by
        have := Nat.div_lt_self (by omega : 0 < n) (by omega : 1 < 2)
        omega
      have hd1 : 1 ≤ n / 2 := (Nat.one_le_div_iff (by omega)).mpr hc
      obtain ⟨hlo, hhi⟩ := ih (n / 2) hdle hd1
      constructor
      · calc 2 ^ (lg2F fuel (n / 2) + 1) = 2 * 2 ^ lg2F fuel (n / 2) := by ring
        _ ≤ 2 * (n / 2) := by omega
        _ ≤ n := by omega
      · have hmod := Nat.div_add_mod n 2
        have : n < 2 * (n / 2 + 1) := by omega
        calc n < 2 * (n / 2 + 1) := this
        _ ≤ 2 * 2 ^ (lg2F fuel (n / 2) + 1) := by omega
        _ = 2 ^ (lg2F fuel (n / 2) + 1 + 1) := by ring
    · rw [lg2F, if_neg hc]
      omega

theorem lg2_spec (n : ℕ) (h : 1 ≤ n) : 2 ^ lg2 n ≤ n ∧ n < 2 ^ (lg2 n + 1) :=
  lg2F_spec n n le_rfl h

theorem lg2_one : lg2 1 = 0 := rfl

theorem qfloor_intCast (m : ℤ) : qfloor (m : ℚ) = m := by
  simp [qfloor, Rat.num_intCast, Rat.den_intCast]

theorem qtrunc_intCast (m : ℤ) : qtrunc (m : ℚ) = m := by
  simp [qtrunc, Rat.num_intCast, Rat.den_intCast]

theorem exp2Floor_intCast (m : ℤ) (h1 : 1 ≤ m) :
    exp2Floor (m : ℚ) = (lg2 m.natAbs : ℤ) := by
  have hnat : (m.natAbs : ℤ) = m := Int.natAbs_of_nonneg (by linarith)
  have habs1 : 1 ≤ m.natAbs := by omega
  obtain ⟨hlo, _⟩ := lg2_spec m.natAbs habs1
  simp only [exp2Floor, Rat.num_intCast, Rat.den_intCast, lg2_one, Nat.cast_zero, sub_zero]
  rw [if_neg]
  rw [not_lt, zpow_natCast]
  calc ((2 : ℚ) ^ lg2 m.natAbs) = ((2 ^ lg2 m.natAbs : ℕ) : ℚ) := by push_cast; ring
  _ ≤ (m.natAbs : ℚ) := by exact_mod_cast hlo
  _ = (m : ℚ) := by
    have habs : ((m.natAbs : ℕ) : ℚ) = ((|m| : ℤ) : ℚ) := Int.cast_natAbs
    rw [habs, abs_of_nonneg (by linarith : (0 : ℤ) ≤ m)]

theorem roundPos_of_exact (x : ℚ) (k : ℤ) (hk : exp2Floor x = k) (hk2 : ¬k < -1022)
    (n0 : ℤ) (hn : x = (n0 : ℚ) * (2 : ℚ) ^ (k - 52)) : roundPos x = x := by
  have hq : ((2 : ℚ) ^ (k - 52)) ≠ 0 := zpow_ne_zero _ two_ne_zero
  simp only [roundPos, hk, if_neg hk2]
  have hy : x / (2 : ℚ) ^ (k - 52) = (n0 : ℚ) := by
    rw [hn, mul_div_assoc, div_self hq, mul_one]
  rw [hy, qfloor_intCast]
  have hfrac : (n0 : ℚ) - (n0 : ℚ) = 0 := sub_self _
  rw [hfrac]
  rw [if_neg (by norm_num), if_pos (by norm_num)]
  exact hn.symm

theorem roundPos_intCast (m : ℤ) (h1 : 1 ≤ m) (h53 : m ≤ 2 ^ 53) :
    roundPos (m : ℚ) = m := by
  set k := lg2 m.natAbs with hkdef
  have hnat : (m.natAbs : ℤ) = m := Int.natAbs_of_nonneg (by linarith)
  have habs1 : 1 ≤ m.natAbs := by omega
  obtain ⟨hlo, hhi⟩ := lg2_spec m.natAbs habs1
  have habs53 : m.natAbs ≤ 2 ^ 53 := by omega
  have hk53 : k ≤ 53 := by
    by_contra hgt
    have h54 : 2 ^ 54 ≤ 2 ^ k := Nat.pow_le_pow_right (by omega) (by omega)
    have : (2 : ℕ) ^ 54 ≤ 2 ^ 53 := le_trans h54 (le_trans hlo habs53)
    omega
  have hke : exp2Floor (m : ℚ) = (k : ℤ) := exp2Floor_intCast m h1
  have hknn : ¬((k : ℤ) < -1022) := by omega
  rcases Nat.lt_or_ge k 53 with hk52 | hk53e
  · -- normal case: the quantum exponent k - 52 is nonpositive
    have hkle : k ≤ 52 := by omega
    refine roundPos_of_exact _ _ hke hknn (m * 2 ^ (52 - k)) ?_
    push_cast
    rw [mul_assoc, ← zpow_natCast (2 : ℚ) (52 - k), ← zpow_add₀ (two_ne_zero)]
    rw [show (((52 - k : ℕ) : ℤ)) + ((k : ℤ) - 52) = 0 by omega, zpow_zero, mul_one]
  · -- k = 53 forces m = 2^53
    have hkeq : k = 53 := by omega
    have hm : m = 2 ^ 53 := by
      have : (2 : ℕ) ^ 53 ≤ m.natAbs := by rw [← hkeq]; exact hlo
      omega
    refine roundPos_of_exact _ _ hke hknn (2 ^ 52) ?_
    rw [hm, hkeq]
    push_cast
    norm_num

theorem roundDouble_zero : roundDouble 0 = 0 := by simp [roundDouble]

theorem roundDouble_intCast (m : ℤ) (h : m.natAbs ≤ 2 ^ 53) :
    roundDouble (m : ℚ) = m := by
  rcases lt_trichotomy m 0 with hm | hm | hm
  · have hpos : (1 : ℤ) ≤ -m := by omega
    have h53 : -m ≤ 2 ^ 53 := by omega
    have hx : ((m : ℚ)) < 0 := by exact_mod_cast hm
    rw [roundDouble, if_neg (by exact ne_of_lt hx), if_pos hx]
    have : -(m : ℚ) = ((-m : ℤ) : ℚ) := by push_cast; ring
    rw [this, roundPos_intCast _ hpos h53]
    push_cast; ring
  · rw [hm]; exact_mod_cast roundDouble_zero
  · have hpos : (1 : ℤ) ≤ m := hm
    have h53 : m ≤ 2 ^ 53 := by omega
    have hx : (0 : ℚ) < (m : ℚ) := by exact_mod_cast hm
    rw [roundDouble, if_neg (by exact ne_of_gt hx), if_neg (not_lt.mpr (le_of_lt hx))]
    exact roundPos_intCast _ hpos h53

theorem intToDouble_small (m : ℤ) (h : m.natAbs ≤ 2 ^ 53) : intToDouble m = m :=
  roundDouble_intCast m h

/-- `count` is exact on whole-second values with small seconds field. -/
theorem count_sec (s : ℤ) (h : s.natAbs ≤ 2 ^ 53) :
    timespec_t.count ⟨s, 0⟩ = (s : ℚ) := by
  simp only [timespec_t.count, ddiv, dadd]
  rw [show intToDouble 0 = 0 from intToDouble_small 0 (by norm_num)]
  rw [zero_div, roundDouble_zero, add_zero]
  rw [intToDouble_small s h]
  exact roundDouble_intCast s h

/-- The floating-point constructor is exact on small integer (whole-second)
values. -/
theorem ofDouble_intCast (m : ℤ) (h : m.natAbs ≤ 2 ^ 53) :
    timespec_t.ofDouble ((m : ℤ) : ℚ) = ⟨m, 0⟩ := by
  simp only [timespec_t.ofDouble, qtrunc_intCast, dmul, dsub]
  rw [intToDouble_small m h, sub_self, roundDouble_zero, zero_mul, roundDouble_zero]
  rw [show qtrunc 0 = 0 from qtrunc_intCast 0]
  exact normalize_of_inrange m 0 le_rfl (by norm_num [ns_per_second])

/-! ## Lemmas: Stopwatch invariant -/

theorem sumRounds_append (l : List Duration) (d : Duration) :
    sumRounds (l ++ [d]) = tadd (sumRounds l) d.duration := by
  simp [sumRounds, List.foldl_append]

theorem sumRounds_map (f : Duration → Duration) (hf : ∀ d, (f d).duration = d.duration)
    (l : List Duration) : sumRounds (l.map f) = sumRounds l := by
  simp only [sumRounds, List.foldl_map, hf]

theorem swStep_inv (sw : Stopwatch) (op : SwOp) (h : swInv sw) : swInv (swStep sw op) := by
  cases op with
  | reset now =>
    show sumRounds [] = timespec_t.zero
    rfl
  | start now => exact h
  | round now =>
    show sumRounds (sw.partials ++ [_]) = _
    rw [sumRounds_append, h]
    rfl
  | setPrintMode pm =>
    show sumRounds (sw.partials.map (fun x => x.set_print_mode pm)) = _
    rw [sumRounds_map (fun x => x.set_print_mode pm) (fun d => rfl), h]
    rfl
  | setFormat fmt =>
    show sumRounds (sw.partials.map (fun x => x.set_format fmt)) = _
    rw [sumRounds_map (fun x => x.set_format fmt) (fun d => rfl), h]
    rfl

theorem swRun_inv (ops : List SwOp) : ∀ sw : Stopwatch, swInv sw → swInv (swRun sw ops) := by
  induction ops with
  | nil => intro sw h; exact h
  | cons op ops ih =>
    intro sw h
    exact ih (swStep sw op) (swStep_inv sw op h)

theorem swRunRounds_eq_swRun (nows : List timespec_t) (sw : Stopwatch) :
    swRunRounds sw nows = swRun sw (nows.map .round) := by
  induction nows generalizing sw with
  | nil => rfl
  | cons t ts ih => exact ih ((sw.round t).1)

theorem swRunRounds_length (nows : List timespec_t) : ∀ sw : Stopwatch,
    (swRunRounds sw nows).partials.length = sw.partials.length + nows.length := by
  induction nows with
  | nil => intro sw; simp [swRunRounds]
  | cons t ts ih =>
    intro sw
    show (swRunRounds ((sw.round t).1) ts).partials.length = _
    rw [ih]
    simp [Stopwatch.round]
    omega

theorem reset_inv (sw : Stopwatch) (now : timespec_t) : swInv (sw.reset now) := by
  show sumRounds [] = timespec_t.zero
  rfl

/-! ## Claim theorems -/

set_option maxRecDepth 1000000 in
unseal Rat.add Rat.mul Rat.sub Rat.inv in
/-- C1 (code evaluation at the failing input): a `Timer` constructed with the
default timeout `0` — documented in timer.hpp as "meaning no target" — reports
`has_timeout() == true` as soon as any time has elapsed (here exactly one
second), because `has_timeout()` compares `elapsed().count() > _timeout` with
no special case for a zero timeout. -/
theorem has_timeout_zero_timeout_true :
    (Timer.create .human "" 0 ⟨0, 0⟩).has_timeout ⟨1, 0⟩ = true := by decide

/-- C2 (spec-modelled pausable Timer): running for `r1`, pausing for `w`, then
running for `r2` reports an elapsed time of `r1` while paused and `r1 + r2`
afterwards — the paused interval `w` is excluded entirely. -/
theorem ptimer_elapsed_excludes_paused (t0 r1 w r2 : ℤ) :
    ((PTimer.reset t0).pause (t0 + r1)).accumulated = r1
    ∧ ((PTimer.reset t0).pause (t0 + r1)).elapsed (t0 + r1 + w) = r1
    ∧ (((PTimer.reset t0).pause (t0 + r1)).start (t0 + r1 + w)).elapsed (t0 + r1 + w + r2)
        = r1 + r2 := by
  refine ⟨?_, ?_, ?_⟩
  · simp [PTimer.reset, PTimer.pause]
  · simp [PTimer.reset, PTimer.pause, PTimer.elapsed]
  · simp [PTimer.reset, PTimer.pause, PTimer.start, PTimer.elapsed]

set_option maxRecDepth 1000000 in
unseal Rat.add Rat.mul Rat.sub Rat.inv in
/-- C3 (counterexample): `(a + b) - b == a` fails for
`a = {536870912 s, 1 ns}` and `b = 0`: `operator+` and `operator-` round
through `double` (`count()`), and at 2^29 seconds the quantum of a `double` is
about 119 ns, so the 1 ns is rounded away by `a + b` already. -/
theorem add_sub_cancel_cex :
    tsub (tadd ⟨536870912, 1⟩ ⟨0, 0⟩) ⟨0, 0⟩ ≠ (⟨536870912, 1⟩ : timespec_t) := by decide

/-- C3 (amended): the round-trip identity `(a + b) - b == a` does hold
whenever both operands are whole-second values (zero nanoseconds field) whose
seconds fit in 52 bits, since such values and their sums and differences are
exactly representable in `double`. -/
theorem add_sub_cancel_whole_seconds (a b : timespec_t)
    (ha : a.tv_nsec = 0) (hb : b.tv_nsec = 0)
    (hsa : a.tv_sec.natAbs ≤ 2 ^ 52) (hsb : b.tv_sec.natAbs ≤ 2 ^ 52) :
    tsub (tadd a b) b = a := by
  obtain ⟨s, n⟩ := a
  obtain ⟨t, n2⟩ := b
  simp only at ha hb hsa hsb
  subst ha hb
  have hs53 : s.natAbs ≤ 2 ^ 53 := le_trans hsa (by norm_num)
  have ht53 : t.natAbs ≤ 2 ^ 53 := le_trans hsb (by norm_num)
  have hst53 : (s + t).natAbs ≤ 2 ^ 53 := by
    calc (s + t).natAbs ≤ s.natAbs + t.natAbs := Int.natAbs_add_le s t
    _ ≤ 2 ^ 52 + 2 ^ 52 := Nat.add_le_add hsa hsb
    _ = 2 ^ 53 := by norm_num
  have hadd : tadd ⟨s, 0⟩ ⟨t, 0⟩ = ⟨s + t, 0⟩ := by
    rw [tadd, count_sec s hs53, count_sec t ht53, dadd]
    rw [show (s : ℚ) + (t : ℚ) = ((s + t : ℤ) : ℚ) by push_cast; ring]
    rw [roundDouble_intCast _ hst53]
    exact ofDouble_intCast _ hst53
  rw [hadd, tsub, count_sec _ hst53, count_sec t ht53, dsub]
  rw [show ((s + t : ℤ) : ℚ) - (t : ℚ) = ((s : ℤ) : ℚ) by push_cast; ring]
  rw [roundDouble_intCast _ hs53]
  exact ofDouble_intCast _ hs53

/-- Witness for C3's amended theorem, at 5 s and 7 s. -/
theorem add_sub_cancel_whole_seconds_witness :
    tsub (tadd ⟨5, 0⟩ ⟨7, 0⟩) ⟨7, 0⟩ = (⟨5, 0⟩ : timespec_t) :=
  add_sub_cancel_whole_seconds ⟨5, 0⟩ ⟨7, 0⟩ rfl rfl (by norm_num) (by norm_num)

/-- C4 (counterexample): for 3661 s the `human` mode does not render
`"1H 1M 1s"`; each component goes through `std::setw(3)` and is followed by a
unit letter and a space, producing `"  1H   1M   1s "`. -/
theorem human_3661_cex :
    Duration.to_string ⟨⟨3661, 0⟩, .human, ""⟩ ≠ "1H 1M 1s" := by decide

/-- C4 (amended): for a Duration of exactly 3661 s and 0 ns, `human` mode
renders `"  1H   1M   1s "` (width-3 right-aligned components, zero
sub-second components omitted) and `numeric` mode renders `"1.1.1.0.0.0"`. -/
theorem duration_to_string_3661 :
    Duration.to_string ⟨⟨3661, 0⟩, .human, ""⟩ = "  1H   1M   1s "
    ∧ Duration.to_string ⟨⟨3661, 0⟩, .numeric, ""⟩ = "1.1.1.0.0.0" := by
  constructor
  · decide
  · decide

/-- C5: starting from a freshly constructed Stopwatch, after any sequence of
`reset`/`start`/`round`/`set_print_mode`/`set_format` calls the total equals
the sum of the recorded rounds; and after `reset()` followed by one `round()`
per entry of `nows`, the number of recorded rounds is `nows.length` and the
total again equals their sum. -/
theorem stopwatch_total_eq_sum_rounds (pm : print_mode_t) (fmt : String)
    (t0 t1 : timespec_t) (ops : List SwOp) (sw : Stopwatch) (nows : List timespec_t) :
    sumRounds (swRun (Stopwatch.create pm fmt t0) ops).partials
      = (swRun (Stopwatch.create pm fmt t0) ops).total_duration.duration
    ∧ (swRunRounds (sw.reset t1) nows).partials.length = nows.length
    ∧ sumRounds (swRunRounds (sw.reset t1) nows).partials
      = (swRunRounds (sw.reset t1) nows).total_duration.duration := by
  refine ⟨?_, ?_, ?_⟩
  · exact swRun_inv ops _ rfl
  · rw [swRunRounds_length]
    show (sw.reset t1).partials.length + _ = _
    simp [Stopwatch.reset, Stopwatch.start]
  · rw [swRunRounds_eq_swRun]
    exact swRun_inv _ _ (reset_inv sw t1)

/-- C7: in both Stopwatch revisions, indexed round access returns the
out-of-range error for every index at or beyond the recorded count, and the
stored round's Duration for every index strictly below it. -/
theorem stopwatch_round_index_access (sw : Stopwatch) (lsw : LStopwatch) (position : Nat) :
    (sw.partials.length ≤ position →
      sw.atIndex position = .error "Out of range of partial times.")
    ∧ (∀ h : position < sw.partials.length,
      sw.atIndex position = .ok (sw.partials.get ⟨position, h⟩))
    ∧ (lsw.partials.length ≤ position →
      lsw.atIndex position = .error "Out of range of partial times.")
    ∧ ∀ h : position < lsw.partials.length,
      lsw.atIndex position = .ok (lsw.partials.get ⟨position, h⟩) := by
  refine ⟨?_, ?_, ?_, ?_⟩
  · intro hge
    rw [Stopwatch.atIndex, dif_neg (by omega)]
  · intro h
    rw [Stopwatch.atIndex, dif_pos h]
  · intro hge
    rw [LStopwatch.atIndex, dif_neg (by omega)]
  · intro h
    rw [LStopwatch.atIndex, dif_pos h]

/-- Witness for C7 on stopwatches with one recorded round each: index 1
errors, index 0 returns the stored round. -/
theorem stopwatch_round_index_access_witness :
    (swExample.atIndex 1 = .error "Out of range of partial times."
      ∧ swExample.atIndex 0 = .ok ⟨⟨5, 0⟩, .human, ""⟩)
    ∧ (lswExample.atIndex 1 = .error "Out of range of partial times."
      ∧ lswExample.atIndex 0 = .ok ⟨2, .human⟩) :=
  ⟨⟨(stopwatch_round_index_access swExample lswExample 1).1 (by decide),
    (stopwatch_round_index_access swExample lswExample 0).2.1 (by decide)⟩,
   ⟨(stopwatch_round_index_access swExample lswExample 1).2.2.1 (by decide),
    (stopwatch_round_index_access swExample lswExample 0).2.2.2 (by decide)⟩⟩

/-- C8 (counterexample): on the legacy `stopwatch::Stopwatch`, calling
`set_print_mode(numeric)` on a stopwatch holding one recorded round in
`human` mode leaves that round's print mode at `human` — the new setting is
not propagated to recorded rounds, contradicting the claim for every
Stopwatch. -/
theorem legacy_set_print_mode_cex :
    ((LStopwatch.set_print_mode ⟨0, ⟨0, .human⟩, [⟨1, .human⟩], .human⟩ .numeric).partials.map
        LDuration.print_mode = [LPrintMode.human])
    ∧ LPrintMode.human ≠ LPrintMode.numeric := by
  exact ⟨rfl, by decide⟩

/-- C8 (amended): `timelib::Stopwatch::set_print_mode` / `set_format`
eagerly propagate the new setting to the total and to every recorded round
(leaving the rounds' stored time values untouched), while the legacy
`stopwatch::Stopwatch::set_print_mode` updates only the total and leaves the
recorded rounds unchanged. -/
theorem set_print_mode_propagation (sw : Stopwatch) (pm : print_mode_t) (fmt : String)
    (lsw : LStopwatch) (lpm : LPrintMode) :
    (sw.set_print_mode pm).total_duration.print_mode = pm
    ∧ (sw.set_print_mode pm).partials.map Duration.print_mode
        = List.replicate sw.partials.length pm
    ∧ (sw.set_print_mode pm).partials.map Duration.duration
        = sw.partials.map Duration.duration
    ∧ (sw.set_format fmt).total_duration.format = fmt
    ∧ (sw.set_format fmt).partials.map Duration.format
        = List.replicate sw.partials.length fmt
    ∧ (lsw.set_print_mode lpm).total_duration.print_mode = lpm
    ∧ (lsw.set_print_mode lpm).partials = lsw.partials := by
  refine ⟨rfl, ?_, ?_, rfl, ?_, rfl, rfl⟩
  · simp [Stopwatch.set_print_mode, Duration.set_print_mode, List.map_map, Function.comp]
    exact List.map_const' sw.partials pm
  · simp [Stopwatch.set_print_mode, Duration.set_print_mode, List.map_map, Function.comp]
  · simp [Stopwatch.set_format, Duration.set_format, List.map_map, Function.comp]
    exact List.map_const' sw.partials fmt

/-- C9: a Duration in `custom` mode with an empty format string renders the
empty string — the component branch prints nothing and no placeholder
substitution happens. -/
theorem custom_empty_format_renders_empty (ts : timespec_t) :
    Duration.to_string ⟨ts, .custom, ""⟩ = "" := by
  simp [Duration.to_string]

/-- C10: assigning a raw `timespec_t` to a Duration via `operator=` replaces
only the stored time value; the print mode and format are unchanged. -/
theorem duration_assign_raw_frame (d : Duration) (rhs : timespec_t) :
    (d.assignRaw rhs).duration = rhs
    ∧ (d.assignRaw rhs).print_mode = d.print_mode
    ∧ (d.assignRaw rhs).format = d.format :=
  ⟨rfl, rfl, rfl⟩

/-- C6: normalization is idempotent, lands the nanoseconds component in
`[0, 1e9)`, and carries borrow/overflow into the seconds field (the total
nanosecond value is preserved). -/
theorem normalize_idempotent_and_range (ts : timespec_t) :
    ts.normalize.normalize = ts.normalize
    ∧ 0 ≤ ts.normalize.tv_nsec ∧ ts.normalize.tv_nsec < ns_per_second
    ∧ ts.normalize.to_nanoseconds = ts.to_nanoseconds := by
  obtain ⟨h0, h1, hv⟩ := normalize_spec ts
  exact ⟨normalize_of_inrange ts.normalize.tv_sec ts.normalize.tv_nsec h0 h1, h0, h1, hv⟩

end Timelib
